import Mathlib

/-!
# update-appstream-metadata: the filter / map pipeline of `main`

A shallow embedding of `src/update-appstream-metadata.go`.

* Go strings that come out of `json.Unmarshal` are valid UTF-8, so they are
  embedded as Lean `String`s; `==` is string equality and `<` is the byte-wise
  lexicographic order on the UTF-8 encoding (`strLess`).
* `log.Fatal` is embedded as `Except.error` carrying the place that failed.
* The two things the program takes from its surroundings, the schedule server
  and the local time zone, are the fields of `Env`.
-/

namespace AppStream

/-! ## Data model (source lines 17-99) -/

/-- Go `type Collection struct` (lines 22-32). -/
structure Collection where
  AllowRetire : Bool := false
  Branchname : String := ""
  DateCreated : String := ""
  DateUpdated : String := ""
  DistTag : String := ""
  KojiName : String := ""
  Name : String := ""
  Status : String := ""
  Version : String := ""
  deriving DecidableEq, Repr

/-- Go `type PkgDbCollections struct` (lines 17-20). -/
structure PkgDbCollections where
  Collections : List Collection := []
  Output : String := ""
  deriving DecidableEq, Repr

/-- The anonymous `Description` struct of `Component` and `Release`. -/
structure Description where
  Text : String := ""
  P : String := ""
  deriving DecidableEq, Repr

/-- Go `type Release struct` (lines 57-67). -/
structure Release where
  Text : String := ""
  Version : String := ""
  Type_ : String := ""
  Date : String := ""
  DateEol : String := ""
  Description : Description := {}
  deriving DecidableEq, Repr

/-- The anonymous `URL` struct of `Component`. -/
structure URL where
  Text : String := ""
  Type_ : String := ""
  deriving DecidableEq, Repr

/-- The anonymous `Releases` struct of `Component`; a nil slice is `[]`. -/
structure Releases where
  Text : String := ""
  Release : List Release := []
  deriving DecidableEq, Repr

/-- Go `type Component struct` (lines 34-55), without the `XMLName` tag field. -/
structure Component where
  Text : String := ""
  Type_ : String := ""
  ID : String := ""
  Name : String := ""
  Summary : String := ""
  Description : Description := {}
  URL : URL := {}
  MetadataLicense : String := ""
  DeveloperName : String := ""
  Releases : Releases := {}
  deriving DecidableEq, Repr

/-- An element of `Schedule.Tasks` (lines 84-97); the float and interface
fields, which `main` never reads, are left out. -/
structure Task where
  Level : Int := 0
  End : String := ""
  Index : Int := 0
  Name : String := ""
  ParentTask : String := ""
  Priority : Int := 0
  Slug : String := ""
  Start : String := ""
  Type_ : String := ""
  Link : String := ""
  deriving DecidableEq, Repr

/-- Go `type Schedule struct` (lines 69-99); only `Tasks` is read by `main`. -/
structure Schedule where
  End : String := ""
  Name : String := ""
  Slug : String := ""
  Start : String := ""
  Tasks : List Task := []
  UsedFlags : List String := []
  deriving DecidableEq, Repr

/-- The places where `main` calls `log.Fatal` between parsing the collections
and serialising the document. -/
inductive Fatal where
  /-- Line 142: `collections.Output != "ok"`. -/
  | invalidOutput
  /-- Lines 184-189: `getJSON` failed or the schedule did not unmarshal. -/
  | scheduleUnavailable (url : String)
  /-- Lines 193-196 and 205-208: `strconv.Atoi(t.Start)` returned an error. -/
  | atoi (start : String)
  /-- Line 216: `"Should never be reached"`. -/
  | shouldNeverBeReached
  deriving DecidableEq, Repr

/-- What the run takes from outside the program. -/
structure Env where
  /-- `getJSON url` followed by `json.Unmarshal` into a `Schedule`
  (lines 184-189); `none` when either step is fatal. The server is taken to
  answer one address the same way throughout a run. -/
  getSchedule : String → Option Schedule
  /-- `tm := time.Unix(sec, 0)` followed by `tm.Year(), tm.Month(), tm.Day()`
  in the local time zone of the machine. -/
  localDate : Int → Int × Int × Int

/-! ## Go string order -/

/-- UTF-8 encoding of one character, as byte values. -/
def utf8Bytes (c : Char) : List Nat :=
  let n := c.toNat
  if n < 0x80 then [n]
  else if n < 0x800 then [0xC0 + n / 64, 0x80 + n % 64]
  else if n < 0x10000 then [0xE0 + n / 4096, 0x80 + n / 64 % 64, 0x80 + n % 64]
  else [0xF0 + n / 262144, 0x80 + n / 4096 % 64, 0x80 + n / 64 % 64, 0x80 + n % 64]

/-- The bytes of a Go string. -/
def goBytes (s : String) : List Nat :=
  (s.data.map utf8Bytes).flatten

/-- Lexicographic order on byte sequences, a proper prefix being smaller. -/
def bytesLess : List Nat → List Nat → Bool
  | _, [] => false
  | [], _ :: _ => true
  | a :: as, b :: bs =>
    if a < b then true else if b < a then false else bytesLess as bs

/-- Go `a < b` on strings. -/
def strLess (a b : String) : Bool :=
  bytesLess (goBytes a) (goBytes b)

/-- Go `a >= b` on strings. -/
def strGe (a b : String) : Bool :=
  !strLess a b

/-! ## Library functions used by `main` -/

/-- Value of an ASCII decimal digit. -/
def digitVal (c : Char) : Option Nat :=
  if 48 ≤ c.toNat ∧ c.toNat ≤ 57 then some (c.toNat - 48) else none

/-- Reads a run of decimal digits, most significant first. -/
def parseDigits : List Char → Nat → Option Nat
  | [], acc => some acc
  | c :: cs, acc =>
    match digitVal c with
    | none => none
    | some d => parseDigits cs (acc * 10 + d)

/-- Splits an optional leading sign off; `true` means negative. -/
def splitSign : List Char → Bool × List Char
  | '-' :: rest => (true, rest)
  | '+' :: rest => (false, rest)
  | cs => (false, cs)

/-- Go `strconv.Atoi` for a 64-bit `int`: an optional sign, then one or more
decimal digits, the value in `[-2^63, 2^63 - 1]`; `none` is a returned error. -/
def Atoi (s : String) : Option Int :=
  let sd := splitSign s.data
  if sd.2.isEmpty then none
  else
    match parseDigits sd.2 0 with
    | none => none
    | some n =>
      if sd.1 then
        if 2 ^ 63 < n then none else some (-(n : Int))
      else
        if 2 ^ 63 ≤ n then none else some (n : Int)

/-- Go `%d` applied to an integer. -/
def fmtD (n : Int) : String :=
  if n < 0 then "-" ++ toString n.natAbs else toString n.natAbs

/-- Go `%02d` applied to an integer: the digits are padded with zeros to width
two, the sign counting towards the width. -/
def fmt02d (n : Int) : String :=
  let digits := toString n.natAbs
  let prec := if n < 0 then 1 else 2
  let padded := String.mk (List.replicate (prec - digits.length) '0') ++ digits
  if n < 0 then "-" ++ padded else padded

/-- The call `fmt.Sprintf("%d-%02d-%02d", tm.Year(), tm.Month(), tm.Day())`
(lines 199 and 211). -/
def dateString (ymd : Int × Int × Int) : String :=
  fmtD ymd.1 ++ "-" ++ fmt02d ymd.2.1 ++ "-" ++ fmt02d ymd.2.2

/-- The call `fmt.Sprintf(schedule, c.Version, c.Version)` with the format of
line 102. -/
def scheduleURL (version : String) : String :=
  "https://fedorapeople.org/groups/schedule/f-" ++ version ++ "/f-" ++ version
    ++ "-all-milestones.json"

/-! ## The loop of `main` (lines 156-219) -/

/-- The three `continue` guards (lines 158-168): `true` when none fires. -/
def passesFilter (c : Collection) : Bool :=
  if !(c.Name == "Fedora" || c.Name == "Fedora Linux") then false
  else if c.Name == "Fedora" && strLess c.Version "30" then false
  else if strGe c.Version "35" && c.Name == "Fedora" then false
  else true

/-- The condition `t.Name == name && t.Type_ == "Milestone"` of lines 192, 204. -/
def isMilestone (name : String) (t : Task) : Bool :=
  t.Name == name && t.Type_ == "Milestone"

/-- The loops of lines 191-201 (`name = "Current Final Target date"`, the
field is `r.Date`) and 203-213 (`name = "EOL"`, the field is `r.DateEol`):
`field` is the value of the field when the loop reaches `tasks`. -/
def scanTasks (env : Env) (name : String) : List Task → String → Except Fatal String
  | [], field => .ok field
  | t :: ts, field =>
    if isMilestone name t then
      match Atoi t.Start with
      | none => .error (.atoi t.Start)
      | some res => scanTasks env name ts (dateString (env.localDate res))
    else scanTasks env name ts field

/-- The string literal of line 173. -/
def rawhideText : String :=
  "This is the current version for Rawhide, which is a continuous rolling development branch. No releases are ever made directly from Rawhide, and it never freezes. There is no guarantee of stability. Rawhide is intended for initial testing of the very latest code under active development."

/-- The body of the loop from line 169 to line 217: the release built for a
collection that passed the guards. -/
def mapCollection (env : Env) (c : Collection) : Except Fatal Release :=
  if c.Version == "devel" then
    .ok { Version := "Rawhide", Type_ := "development",
          Description := { P := rawhideText } }
  else if c.Status == "Under Development" then
    .ok { Version := c.Version, Type_ := "development",
          Description := { P := "The upcoming release of Fedora Linux." } }
  else if c.Status == "Active" || c.Status == "EOL" then
    match env.getSchedule (scheduleURL c.Version) with
    | none => .error (.scheduleUnavailable (scheduleURL c.Version))
    | some schedule =>
      match scanTasks env "Current Final Target date" schedule.Tasks "" with
      | .error e => .error e
      | .ok date =>
        if c.Status == "EOL" then
          match scanTasks env "EOL" schedule.Tasks "" with
          | .error e => .error e
          | .ok dateEol =>
            .ok { Version := c.Version, Type_ := "stable", Date := date, DateEol := dateEol,
                  Description := { P := "https://fedoramagazine.org/announcing-fedora-" ++ c.Version ++ "/" } }
        else
          .ok { Version := c.Version, Type_ := "stable", Date := date,
                Description := { P := "https://fedoramagazine.org/announcing-fedora-" ++ c.Version ++ "/" } }
  else .error .shouldNeverBeReached

/-- The `for _, c := range collections.Collections` loop (lines 156-219);
`rs` is `m.Releases.Release` when the loop reaches the given collections. -/
def mainLoop (env : Env) : List Collection → List Release → Except Fatal (List Release)
  | [], rs => .ok rs
  | c :: cs, rs =>
    if passesFilter c then
      match mapCollection env c with
      | .error e => .error e
      | .ok r => mainLoop env cs (rs ++ [r])
    else mainLoop env cs rs

/-- The component `m` after lines 145-154. -/
def baseComponent : Component :=
  { Type_ := "operating-system"
    ID := "org.fedoraproject.fedora"
    Name := "Fedora Linux"
    Summary := "Fedora Linux distribution from the Fedora Project"
    Description := { P := "Fedora creates an innovative, free, and open source platform for hardware, clouds, and containers that enables software developers and community members to build tailored solutions for their users." }
    URL := { Text := "https://fedoraproject.org/", Type_ := "homepage" }
    MetadataLicense := "MIT"
    DeveloperName := "The Fedora Project" }

/-- Go `main` from the parsed collections document (line 141) to the component
handed to `xml.MarshalIndent` (line 221). `Except.error` is a `log.Fatal`: the
process exits before line 223 creates the output file. Reading and parsing the
collections (lines 125-140) and writing the file (lines 221-238) are not part
of the embedding. -/
def main (env : Env) (collections : PkgDbCollections) : Except Fatal Component :=
  if collections.Output != "ok" then .error .invalidOutput
  else
    match mainLoop env collections.Collections [] with
    | .error e => .error e
    | .ok rs => .ok { baseComponent with Releases := { Release := rs } }

/-! ## A concrete environment -/

/-- Proleptic Gregorian date of a day number counted from 1970-01-01. -/
def civilFromDays (days : Int) : Int × Int × Int :=
  let z := days + 719468
  let era := z / 146097
  let doe := z - era * 146097
  let yoe := (doe - doe / 1460 + doe / 36524 - doe / 146096) / 365
  let doy := doe - (365 * yoe + yoe / 4 - yoe / 100)
  let mp := (5 * doy + 2) / 153
  let d := doy - (153 * mp + 2) / 5 + 1
  let m := if mp < 10 then mp + 3 else mp - 9
  let y := yoe + era * 400
  (if m ≤ 2 then y + 1 else y, m, d)

/-- Year, month and day of a Unix time on a machine whose zone is UTC. -/
def utcDate (sec : Int) : Int × Int × Int :=
  civilFromDays (sec / 86400)

/-- A machine in UTC whose schedule server answers every request with the
given task list. -/
def utcEnv (tasks : List Task) : Env :=
  { getSchedule := fun _ => some { Tasks := tasks }
    localDate := utcDate }

/-! ## Specification-side notions -/

/-- The first task, in array order, that satisfies the condition of the scan. -/
def firstMatch (name : String) (tasks : List Task) : Option Task :=
  tasks.find? (isMilestone name)

/-- The last task, in array order, that satisfies the condition of the scan. -/
def lastMatch (name : String) : List Task → Option Task
  | [] => none
  | t :: ts =>
    match lastMatch name ts with
    | some u => some u
    | none => if isMilestone name t then some t else none

/-- The date string a task's `Start` stands for, when `Atoi` accepts it. -/
def taskDate (env : Env) (t : Task) : Option String :=
  (Atoi t.Start).map (fun res => dateString (env.localDate res))

/-- A status outside the three that lines 174 and 178 test for. -/
def unknownStatus (c : Collection) : Prop :=
  c.Status ≠ "Under Development" ∧ c.Status ≠ "Active" ∧ c.Status ≠ "EOL"

/-- A decimal integer string: an optional sign followed by one or more ASCII
decimal digits. -/
def isDecimalInteger (s : String) : Bool :=
  let ds := (splitSign s.data).2
  !ds.isEmpty && ds.all (fun c => decide (48 ≤ c.toNat ∧ c.toNat ≤ 57))

/-! ## Concrete inputs -/

/-- The Rawhide collection of the package database. -/
def exRawhide : Collection :=
  { Name := "Fedora Linux", Version := "devel", Status := "Under Development" }

/-- A branched release that is not out yet. -/
def exUpcoming : Collection :=
  { Name := "Fedora Linux", Version := "41", Status := "Under Development" }

/-- A supported release under the new name. -/
def exActive : Collection :=
  { Name := "Fedora Linux", Version := "40", Status := "Active" }

/-- An end-of-life release under the old name. -/
def exEol : Collection :=
  { Name := "Fedora", Version := "31", Status := "EOL" }

/-- A release below the version window of the old name. -/
def exOld : Collection :=
  { Name := "Fedora", Version := "29", Status := "EOL" }

/-- A collection of another product. -/
def exEpel : Collection :=
  { Name := "Fedora EPEL", Version := "8", Status := "Active" }

/-- A collection whose status is outside the vocabulary. -/
def exRetired : Collection :=
  { Name := "Fedora Linux", Version := "39", Status := "Retired" }

/-- A release milestone at 2019-10-29 12:00 UTC. -/
def exFinal : Task :=
  { Name := "Current Final Target date", Type_ := "Milestone", Start := "1572350400" }

/-- An end-of-life milestone at 2021-01-01 00:00 UTC. -/
def exEolTask : Task :=
  { Name := "EOL", Type_ := "Milestone", Start := "1609459200" }

/-- A second release milestone, one week after `exFinal`. -/
def exFinalSlipped : Task :=
  { Name := "Current Final Target date", Type_ := "Milestone", Start := "1572955200" }

/-- A second end-of-life milestone, one day after `exEolTask`. -/
def exEolSlipped : Task :=
  { Name := "EOL", Type_ := "Milestone", Start := "1609545600" }

/-- A task with the name of the release milestone but another type. -/
def exFinalNoMilestone : Task :=
  { Name := "Current Final Target date", Type_ := "Task", Start := "1572350400" }

/-- A milestone with another name, whose start is not a number. -/
def exOtherMilestone : Task :=
  { Name := "Mass Rebuild", Type_ := "Milestone", Start := "tbd" }

/-- A release milestone whose start is not a number. -/
def exFinalBad : Task :=
  { Name := "Current Final Target date", Type_ := "Milestone", Start := "soon" }

/-- An end-of-life milestone whose start is not a number. -/
def exEolBad : Task :=
  { Name := "EOL", Type_ := "Milestone", Start := "2021-01-01" }

/-- The release of line 171-173, every field written out. -/
def rawhideRelease : Release :=
  { Text := "", Version := "Rawhide", Type_ := "development", Date := "", DateEol := "",
    Description := { Text := "", P := rawhideText } }

/-- The release of lines 175-177 for a version, every field written out. -/
def upcomingRelease (version : String) : Release :=
  { Text := "", Version := version, Type_ := "development", Date := "", DateEol := "",
    Description := { Text := "", P := "The upcoming release of Fedora Linux." } }

/-- A collections document whose entries are not in version order. -/
def exDoc : PkgDbCollections :=
  { Collections := [exOld, exUpcoming, exEpel, exRawhide, exEol], Output := "ok" }

/-- The document `main` builds from `exDoc` when the schedule of release 31
holds `exFinal` and `exEolTask`. -/
def exDocOut : Component :=
  { baseComponent with
    Releases :=
      { Release :=
          [upcomingRelease "41", rawhideRelease,
            { Version := "31", Type_ := "stable", Date := "2019-10-29", DateEol := "2021-01-01",
              Description := { P := "https://fedoramagazine.org/announcing-fedora-31/" } }] } }

/-- A collections document the package database marks as failed. -/
def exDocNotOk : PkgDbCollections :=
  { Collections := [exRawhide, exUpcoming], Output := "notok" }

/-- A collections document with a status outside the vocabulary after two
collections that map without error. -/
def exDocRetired : PkgDbCollections :=
  { Collections := [exRawhide, exUpcoming, exRetired], Output := "ok" }

/-- The release of lines 179-181 with the two date fields given, every field
written out. -/
def stableRelease (version date dateEol : String) : Release :=
  { Text := "", Version := version, Type_ := "stable", Date := date, DateEol := dateEol,
    Description :=
      { Text := "", P := "https://fedoramagazine.org/announcing-fedora-" ++ version ++ "/" } }

/-- A schedule in which both milestones occur twice, with different starts. -/
def exTwice : List Task :=
  [exFinal, exFinalSlipped, exEolTask, exEolSlipped]

/-- A schedule whose only non-numeric starts are on tasks the scan for an
"Active" collection does not match. -/
def exMixed : List Task :=
  [exFinalNoMilestone, exOtherMilestone, exFinal, exEolBad]

/-- A schedule with one release milestone and one end-of-life milestone. -/
def exBoth : List Task :=
  [exFinal, exEolTask]

/-- A schedule whose release milestone has a start that is not a number. -/
def exBadFinal : List Task :=
  [exEolTask, exFinalBad]

/-- A collections document whose last collection is `exActive`. -/
def exDocActive : PkgDbCollections :=
  { Collections := [exRawhide, exActive], Output := "ok" }

/-- A release milestone whose start is the decimal integer 2^63, one above the
largest 64-bit `int`. -/
def exFinalHuge : Task :=
  { Name := "Current Final Target date", Type_ := "Milestone", Start := "9223372036854775808" }

/-- An end-of-life milestone whose start is the decimal integer 2^63. -/
def exEolHuge : Task :=
  { Name := "EOL", Type_ := "Milestone", Start := "9223372036854775808" }

/-- A schedule whose release milestone has a start beyond the `int` range. -/
def exHugeFinal : List Task :=
  [exFinalHuge, exEolTask]

/-- A schedule with both milestones, the start of the end-of-life one beyond
the `int` range. -/
def exHugeEol : List Task :=
  [exFinal, exEolHuge]

/-! ## Lemmas on the embedding -/

theorem passesFilter_iff (c : Collection) :
    passesFilter c = true ↔
      (c.Name = "Fedora Linux" ∨
        (c.Name = "Fedora" ∧ strGe c.Version "30" = true ∧ strLess c.Version "35" = true)) := by
  have hne : ("Fedora" : String) ≠ "Fedora Linux" := by decide
  unfold passesFilter strGe
  by_cases h1 : c.Name = "Fedora"
  · have h2 : c.Name ≠ "Fedora Linux" := by rw [h1]; exact hne
    cases h30 : strLess c.Version "30" <;> cases h35 : strLess c.Version "35" <;>
      simp [h1, hne]
  · by_cases h2 : c.Name = "Fedora Linux"
    · simp [h2, hne.symm]
    · simp [h1, h2]

theorem mainLoop_skip (env : Env) (c : Collection) (cs : List Collection) (rs : List Release)
    (h : passesFilter c = false) : mainLoop env (c :: cs) rs = mainLoop env cs rs := by
  simp [mainLoop, h]

theorem mainLoop_keep (env : Env) (c : Collection) (cs : List Collection) (rs : List Release)
    (r : Release) (h : passesFilter c = true) (hr : mapCollection env c = .ok r) :
    mainLoop env (c :: cs) rs = mainLoop env cs (rs ++ [r]) := by
  simp [mainLoop, h, hr]

theorem mainLoop_fail (env : Env) (c : Collection) (cs : List Collection) (rs : List Release)
    (e : Fatal) (h : passesFilter c = true) (hr : mapCollection env c = .error e) :
    mainLoop env (c :: cs) rs = .error e := by
  simp [mainLoop, h, hr]

/-- A successful loop appended, to the releases it started from, one release
per collection that passes the filter, in order; and conversely. -/
theorem mainLoop_ok_iff (env : Env) (cs : List Collection) (rs out : List Release) :
    mainLoop env cs rs = .ok out ↔
      ∃ new, out = rs ++ new ∧
        List.Forall₂ (fun c r => mapCollection env c = .ok r) (cs.filter passesFilter) new := by
  induction cs generalizing rs with
  | nil =>
    simp [mainLoop]
    exact eq_comm
  | cons c cs ih =>
    cases hf : passesFilter c with
    | false =>
      rw [mainLoop_skip env c cs rs hf, ih]
      simp [List.filter, hf]
    | true =>
      cases hm : mapCollection env c with
      | error e =>
        rw [mainLoop_fail env c cs rs e hf hm]
        simp [List.filter, hf, List.forall₂_cons_left_iff, hm]
      | ok r =>
        rw [mainLoop_keep env c cs rs r hf hm, ih]
        simp only [List.filter, hf, List.forall₂_cons_left_iff, hm]
        constructor
        · rintro ⟨new, rfl, h⟩
          exact ⟨r :: new, by simp, r, new, rfl, h, rfl⟩
        · rintro ⟨new, rfl, r2, new2, h1, h2, rfl⟩
          cases h1
          exact ⟨new2, by simp, h2⟩

/-- A failed loop failed in the mapping of a collection that passes the filter. -/
theorem mainLoop_error (env : Env) (cs : List Collection) (rs : List Release) (e : Fatal)
    (h : mainLoop env cs rs = .error e) :
    ∃ c ∈ cs, passesFilter c = true ∧ mapCollection env c = .error e := by
  induction cs generalizing rs with
  | nil => simp [mainLoop] at h
  | cons c cs ih =>
    cases hf : passesFilter c with
    | false =>
      rw [mainLoop_skip env c cs rs hf] at h
      obtain ⟨d, hd, hp⟩ := ih rs h
      exact ⟨d, List.mem_cons_of_mem _ hd, hp⟩
    | true =>
      cases hm : mapCollection env c with
      | error e2 =>
        rw [mainLoop_fail env c cs rs e2 hf hm] at h
        cases h
        exact ⟨c, List.mem_cons_self _ _, hf, hm⟩
      | ok r =>
        rw [mainLoop_keep env c cs rs r hf hm] at h
        obtain ⟨d, hd, hp⟩ := ih _ h
        exact ⟨d, List.mem_cons_of_mem _ hd, hp⟩

theorem forall₂_mem_left {α β : Type} {R : α → β → Prop} {l : List α} {l2 : List β}
    (h : List.Forall₂ R l l2) {a : α} (ha : a ∈ l) : ∃ b, R a b := by
  induction h with
  | nil => cases ha
  | cons hab _ ih =>
    rcases List.mem_cons.1 ha with rfl | hmem
    · exact ⟨_, hab⟩
    · exact ih hmem

/-- The loop fails as soon as some collection that passes the filter fails. -/
theorem mainLoop_error_of_mem (env : Env) (cs : List Collection) (rs : List Release)
    (c : Collection) (hc : c ∈ cs) (hf : passesFilter c = true) (e : Fatal)
    (he : mapCollection env c = .error e) : ∃ e2, mainLoop env cs rs = .error e2 := by
  cases h : mainLoop env cs rs with
  | error e2 => exact ⟨e2, rfl⟩
  | ok out =>
    exfalso
    obtain ⟨new, -, hall⟩ := (mainLoop_ok_iff env cs rs out).1 h
    have hmem : c ∈ cs.filter passesFilter := List.mem_filter.2 ⟨hc, hf⟩
    obtain ⟨r, hr⟩ := forall₂_mem_left hall hmem
    rw [he] at hr
    cases hr

theorem main_ok_iff (env : Env) (doc : PkgDbCollections) (m : Component) :
    main env doc = .ok m ↔
      doc.Output = "ok" ∧ ∃ rs, mainLoop env doc.Collections [] = .ok rs ∧
        m = { baseComponent with Releases := { Release := rs } } := by
  unfold main
  by_cases ho : doc.Output = "ok"
  · cases hl : mainLoop env doc.Collections [] with
    | error e => simp [ho]
    | ok rs =>
      simp [ho]
      exact eq_comm
  · simp [ho]

theorem main_error_iff (env : Env) (doc : PkgDbCollections) (e : Fatal) :
    main env doc = .error e ↔
      (doc.Output ≠ "ok" ∧ e = .invalidOutput) ∨
        (doc.Output = "ok" ∧ mainLoop env doc.Collections [] = .error e) := by
  unfold main
  by_cases ho : doc.Output = "ok"
  · cases hl : mainLoop env doc.Collections [] with
    | error e2 => simp [ho]
    | ok rs => simp [ho]
  · simp [ho]
    exact eq_comm

/-! ### `Atoi` and the date string -/

theorem parseDigits_isSome (cs : List Char) (acc : Nat) :
    (parseDigits cs acc).isSome = cs.all (fun c => decide (48 ≤ c.toNat ∧ c.toNat ≤ 57)) := by
  induction cs generalizing acc with
  | nil => simp [parseDigits]
  | cons c cs ih =>
    by_cases hc : 48 ≤ c.toNat ∧ c.toNat ≤ 57
    · simp [parseDigits, digitVal, hc, ih]
    · simp [parseDigits, digitVal, hc]

/-- The parser `Atoi` rejects every string that is not a decimal integer string. -/
theorem Atoi_none_of_not_decimal (s : String) (h : isDecimalInteger s = false) :
    Atoi s = none := by
  unfold isDecimalInteger at h
  unfold Atoi
  by_cases he : (splitSign s.data).2.isEmpty = true
  · simp [he]
  · simp only [he, Bool.not_true, Bool.false_eq_true, ↓reduceIte]
    have hall : (parseDigits (splitSign s.data).2 0).isSome = false := by
      rw [parseDigits_isSome]
      simpa [he] using h
    cases hp : parseDigits (splitSign s.data).2 0 with
    | none => rfl
    | some n => simp [hp] at hall

theorem dateString_ne_empty (ymd : Int × Int × Int) : dateString ymd ≠ "" := by
  intro h
  have hlen := congrArg String.length h
  have h1 : ("-" : String).length = 1 := by decide
  simp [dateString, String.length_append, h1] at hlen

/-! ### The task scans -/

theorem lastMatch_some {name : String} {ts : List Task} {u : Task}
    (h : lastMatch name ts = some u) : u ∈ ts ∧ isMilestone name u = true := by
  induction ts with
  | nil => simp [lastMatch] at h
  | cons t ts ih =>
    unfold lastMatch at h
    cases hl : lastMatch name ts with
    | some v =>
      simp only [hl, Option.some.injEq] at h
      subst h
      exact ⟨List.mem_cons_of_mem _ (ih hl).1, (ih hl).2⟩
    | none =>
      simp only [hl] at h
      by_cases hm : isMilestone name t = true
      · simp only [hm, ↓reduceIte, Option.some.injEq] at h
        subst h
        exact ⟨List.mem_cons_self _ _, hm⟩
      · simp [hm] at h

theorem lastMatch_eq_none_iff (name : String) (ts : List Task) :
    lastMatch name ts = none ↔ ∀ t ∈ ts, isMilestone name t = false := by
  induction ts with
  | nil => simp [lastMatch]
  | cons t ts ih =>
    unfold lastMatch
    cases hl : lastMatch name ts with
    | some v =>
      have hv := lastMatch_some hl
      simp only [List.mem_cons, forall_eq_or_imp, false_iff, not_and, reduceCtorEq]
      intro _ hall
      have := hall v hv.1
      simp [hv.2] at this
    | none =>
      have hall := ih.1 hl
      by_cases hm : isMilestone name t = true
      · simp [hm]
      · simp only [hm, Bool.false_eq_true, ↓reduceIte, List.mem_cons, forall_eq_or_imp, true_iff]
        exact ⟨by simp [hm], hall⟩

/-- With every matching `Start` accepted by `Atoi`, the scan ends with the date
of the last matching task, or with the field untouched when none matches. -/
theorem scanTasks_numeric (env : Env) (name : String) (ts : List Task) (field : String)
    (hnum : ∀ t ∈ ts, isMilestone name t = true → Atoi t.Start ≠ none) :
    scanTasks env name ts field =
      .ok (((lastMatch name ts).bind (taskDate env)).getD field) := by
  induction ts generalizing field with
  | nil => simp [scanTasks, lastMatch]
  | cons t ts ih =>
    have hts : ∀ u ∈ ts, isMilestone name u = true → Atoi u.Start ≠ none :=
      fun u hu => hnum u (List.mem_cons_of_mem _ hu)
    unfold scanTasks lastMatch
    by_cases hm : isMilestone name t = true
    · obtain ⟨res, hres⟩ := Option.ne_none_iff_exists'.1 (hnum t (List.mem_cons_self _ _) hm)
      simp only [hm, ↓reduceIte, hres]
      rw [ih _ hts]
      cases hl : lastMatch name ts with
      | none => simp [taskDate, hres]
      | some u =>
        obtain ⟨hu, hmu⟩ := lastMatch_some hl
        obtain ⟨n, hn⟩ := Option.ne_none_iff_exists'.1 (hts u hu hmu)
        simp [taskDate, hn]
    · simp only [hm, Bool.false_eq_true, ↓reduceIte]
      rw [ih _ hts]
      cases hl : lastMatch name ts with
      | none => simp
      | some u => simp

/-- A scan fails exactly on a matching task whose `Start` the parser rejects. -/
theorem scanTasks_error (env : Env) (name : String) (ts : List Task) (field : String)
    (e : Fatal) (h : scanTasks env name ts field = .error e) :
    ∃ t ∈ ts, isMilestone name t = true ∧ Atoi t.Start = none ∧ e = .atoi t.Start := by
  induction ts generalizing field with
  | nil => simp [scanTasks] at h
  | cons t ts ih =>
    unfold scanTasks at h
    by_cases hm : isMilestone name t = true
    · cases ha : Atoi t.Start with
      | none =>
        simp only [hm, ↓reduceIte, ha, Except.error.injEq] at h
        exact ⟨t, List.mem_cons_self _ _, hm, ha, h.symm⟩
      | some res =>
        simp only [hm, ↓reduceIte, ha] at h
        obtain ⟨u, hu, hp⟩ := ih _ h
        exact ⟨u, List.mem_cons_of_mem _ hu, hp⟩
    · simp only [hm, Bool.false_eq_true, ↓reduceIte] at h
      obtain ⟨u, hu, hp⟩ := ih _ h
      exact ⟨u, List.mem_cons_of_mem _ hu, hp⟩

theorem scanTasks_fails (env : Env) (name : String) (ts : List Task) (field : String)
    (t : Task) (ht : t ∈ ts) (hm : isMilestone name t = true) (ha : Atoi t.Start = none) :
    ∃ u ∈ ts, isMilestone name u = true ∧ Atoi u.Start = none ∧
      scanTasks env name ts field = .error (.atoi u.Start) := by
  cases h : scanTasks env name ts field with
  | error e =>
    obtain ⟨u, hu, hmu, hau, rfl⟩ := scanTasks_error env name ts field e h
    exact ⟨u, hu, hmu, hau, rfl⟩
  | ok d =>
    exfalso
    induction ts generalizing field with
    | nil => cases ht
    | cons v ts ih =>
      unfold scanTasks at h
      rcases List.mem_cons.1 ht with rfl | hmem
      · simp [hm, ha] at h
      · by_cases hv : isMilestone name v = true
        · cases hav : Atoi v.Start with
          | none => simp [hv, hav] at h
          | some res =>
            simp only [hv, ↓reduceIte, hav] at h
            exact ih _ hmem h
        · simp only [hv, Bool.false_eq_true, ↓reduceIte] at h
          exact ih _ hmem h

/-- A scan that starts from the empty field ends non-empty exactly when some
task matches. -/
theorem scanTasks_ne_empty_iff (env : Env) (name : String) (ts : List Task) (d : String)
    (h : scanTasks env name ts "" = .ok d) :
    d ≠ "" ↔ ∃ t ∈ ts, isMilestone name t = true := by
  have hnum : ∀ t ∈ ts, isMilestone name t = true → Atoi t.Start ≠ none := by
    intro t ht hm ha
    obtain ⟨u, -, -, -, hu⟩ := scanTasks_fails env name ts "" t ht hm ha
    rw [hu] at h
    cases h
  rw [scanTasks_numeric env name ts "" hnum] at h
  cases hl : lastMatch name ts with
  | none =>
    have hall := (lastMatch_eq_none_iff name ts).1 hl
    simp only [hl, Option.none_bind, Option.getD_none, Except.ok.injEq] at h
    subst h
    simp only [ne_eq, not_true_eq_false, false_iff, not_exists, not_and]
    intro t ht
    simp [hall t ht]
  | some u =>
    obtain ⟨hu, hmu⟩ := lastMatch_some hl
    obtain ⟨n, hn⟩ := Option.ne_none_iff_exists'.1 (hnum u hu hmu)
    simp only [hl, Option.some_bind, taskDate, hn, Option.map_some', Option.getD_some,
      Except.ok.injEq] at h
    subst h
    exact ⟨fun _ => ⟨u, hu, hmu⟩, fun _ => dateString_ne_empty _⟩

/-! ### The four branches of the mapping -/

theorem mapCollection_devel (env : Env) (c : Collection) (hv : c.Version = "devel") :
    mapCollection env c =
      .ok { Version := "Rawhide", Type_ := "development",
            Description := { P := rawhideText } } := by
  simp [mapCollection, hv]

theorem mapCollection_underDevelopment (env : Env) (c : Collection)
    (hv : c.Version ≠ "devel") (hs : c.Status = "Under Development") :
    mapCollection env c =
      .ok { Version := c.Version, Type_ := "development",
            Description := { P := "The upcoming release of Fedora Linux." } } := by
  simp [mapCollection, hv, hs]

theorem mapCollection_unknown (env : Env) (c : Collection)
    (hv : c.Version ≠ "devel") (hu : unknownStatus c) :
    mapCollection env c = .error .shouldNeverBeReached := by
  obtain ⟨h1, h2, h3⟩ := hu
  simp [mapCollection, hv, h1, h2, h3]

theorem mapCollection_active (env : Env) (c : Collection) (sched : Schedule)
    (hv : c.Version ≠ "devel") (hs : c.Status = "Active")
    (hg : env.getSchedule (scheduleURL c.Version) = some sched) :
    mapCollection env c =
      match scanTasks env "Current Final Target date" sched.Tasks "" with
      | .error e => .error e
      | .ok date =>
        .ok { Version := c.Version, Type_ := "stable", Date := date,
              Description :=
                { P := "https://fedoramagazine.org/announcing-fedora-" ++ c.Version ++ "/" } } := by
  simp [mapCollection, hv, hs, hg]

theorem mapCollection_eol (env : Env) (c : Collection) (sched : Schedule)
    (hv : c.Version ≠ "devel") (hs : c.Status = "EOL")
    (hg : env.getSchedule (scheduleURL c.Version) = some sched) :
    mapCollection env c =
      match scanTasks env "Current Final Target date" sched.Tasks "" with
      | .error e => .error e
      | .ok date =>
        match scanTasks env "EOL" sched.Tasks "" with
        | .error e => .error e
        | .ok dateEol =>
          .ok { Version := c.Version, Type_ := "stable", Date := date, DateEol := dateEol,
                Description :=
                  { P := "https://fedoramagazine.org/announcing-fedora-" ++ c.Version ++ "/" } } := by
  simp [mapCollection, hv, hs, hg]

theorem mapCollection_unreachable_iff (env : Env) (c : Collection) :
    mapCollection env c = .error .shouldNeverBeReached ↔
      c.Version ≠ "devel" ∧ unknownStatus c := by
  constructor
  · intro h
    by_cases hv : c.Version = "devel"
    · rw [mapCollection_devel env c hv] at h
      cases h
    · refine ⟨hv, ?_⟩
      by_cases h1 : c.Status = "Under Development"
      · rw [mapCollection_underDevelopment env c hv h1] at h
        cases h
      · by_cases h2 : c.Status = "Active"
        · exfalso
          cases hg : env.getSchedule (scheduleURL c.Version) with
          | none => simp [mapCollection, hv, h2, hg] at h
          | some sched =>
            rw [mapCollection_active env c sched hv h2 hg] at h
            cases hd : scanTasks env "Current Final Target date" sched.Tasks "" with
            | error e =>
              obtain ⟨t, -, -, -, he⟩ := scanTasks_error _ _ _ _ _ hd
              simp [hd, he] at h
            | ok d => simp [hd] at h
        · by_cases h3 : c.Status = "EOL"
          · exfalso
            cases hg : env.getSchedule (scheduleURL c.Version) with
            | none => simp [mapCollection, hv, h3, hg] at h
            | some sched =>
              rw [mapCollection_eol env c sched hv h3 hg] at h
              cases hd : scanTasks env "Current Final Target date" sched.Tasks "" with
              | error e =>
                obtain ⟨t, -, -, -, he⟩ := scanTasks_error _ _ _ _ _ hd
                simp [hd, he] at h
              | ok d =>
                cases hd2 : scanTasks env "EOL" sched.Tasks "" with
                | error e =>
                  obtain ⟨t, -, -, -, he⟩ := scanTasks_error _ _ _ _ _ hd2
                  simp [hd, hd2, he] at h
                | ok d2 => simp [hd, hd2] at h
          · exact ⟨h1, h2, h3⟩
  · rintro ⟨hv, hu⟩
    exact mapCollection_unknown env c hv hu

theorem mapCollection_ne_invalidOutput (env : Env) (c : Collection) :
    mapCollection env c ≠ .error .invalidOutput := by
  intro h
  by_cases hv : c.Version = "devel"
  · rw [mapCollection_devel env c hv] at h
    cases h
  · by_cases h1 : c.Status = "Under Development"
    · rw [mapCollection_underDevelopment env c hv h1] at h
      cases h
    · by_cases h2 : c.Status = "Active"
      · cases hg : env.getSchedule (scheduleURL c.Version) with
        | none => simp [mapCollection, hv, h2, hg] at h
        | some sched =>
          rw [mapCollection_active env c sched hv h2 hg] at h
          cases hd : scanTasks env "Current Final Target date" sched.Tasks "" with
          | error e =>
            obtain ⟨t, -, -, -, he⟩ := scanTasks_error _ _ _ _ _ hd
            simp [hd, he] at h
          | ok d => simp [hd] at h
      · by_cases h3 : c.Status = "EOL"
        · cases hg : env.getSchedule (scheduleURL c.Version) with
          | none => simp [mapCollection, hv, h3, hg] at h
          | some sched =>
            rw [mapCollection_eol env c sched hv h3 hg] at h
            cases hd : scanTasks env "Current Final Target date" sched.Tasks "" with
            | error e =>
              obtain ⟨t, -, -, -, he⟩ := scanTasks_error _ _ _ _ _ hd
              simp [hd, he] at h
            | ok d =>
              cases hd2 : scanTasks env "EOL" sched.Tasks "" with
              | error e =>
                obtain ⟨t, -, -, -, he⟩ := scanTasks_error _ _ _ _ _ hd2
                simp [hd, hd2, he] at h
              | ok d2 => simp [hd, hd2] at h
        · rw [mapCollection_unknown env c hv ⟨h1, h2, h3⟩] at h
          cases h

theorem mapCollection_ok_cases (env : Env) (c : Collection) (r : Release)
    (h : mapCollection env c = .ok r) :
    (r.Type_ = "development" ∧ r.Date = "" ∧ r.DateEol = "") ∨ r.Type_ = "stable" := by
  by_cases hv : c.Version = "devel"
  · rw [mapCollection_devel env c hv] at h
    cases h
    exact Or.inl ⟨rfl, rfl, rfl⟩
  · by_cases h1 : c.Status = "Under Development"
    · rw [mapCollection_underDevelopment env c hv h1] at h
      cases h
      exact Or.inl ⟨rfl, rfl, rfl⟩
    · by_cases h2 : c.Status = "Active"
      · cases hg : env.getSchedule (scheduleURL c.Version) with
        | none => simp [mapCollection, hv, h2, hg] at h
        | some sched =>
          rw [mapCollection_active env c sched hv h2 hg] at h
          cases hd : scanTasks env "Current Final Target date" sched.Tasks "" with
          | error e => simp [hd] at h
          | ok d =>
            simp only [hd, Except.ok.injEq] at h
            subst h
            exact Or.inr rfl
      · by_cases h3 : c.Status = "EOL"
        · cases hg : env.getSchedule (scheduleURL c.Version) with
          | none => simp [mapCollection, hv, h3, hg] at h
          | some sched =>
            rw [mapCollection_eol env c sched hv h3 hg] at h
            cases hd : scanTasks env "Current Final Target date" sched.Tasks "" with
            | error e => simp [hd] at h
            | ok d =>
              cases hd2 : scanTasks env "EOL" sched.Tasks "" with
              | error e => simp [hd, hd2] at h
              | ok d2 =>
                simp only [hd, hd2, Except.ok.injEq] at h
                subst h
                exact Or.inr rfl
        · rw [mapCollection_unknown env c hv ⟨h1, h2, h3⟩] at h
          cases h

theorem forall₂_mem_right {α β : Type} {R : α → β → Prop} {l : List α} {l2 : List β}
    (h : List.Forall₂ R l l2) {b : β} (hb : b ∈ l2) : ∃ a, a ∈ l ∧ R a b := by
  induction h with
  | nil => cases hb
  | cons hab _ ih =>
    rcases List.mem_cons.1 hb with rfl | hmem
    · exact ⟨_, List.mem_cons_self _ _, hab⟩
    · obtain ⟨a, ha, hr⟩ := ih hmem
      exact ⟨a, List.mem_cons_of_mem _ ha, hr⟩

theorem isMilestone_iff (name : String) (t : Task) :
    isMilestone name t = true ↔ t.Name = name ∧ t.Type_ = "Milestone" := by
  simp [isMilestone]

theorem lastMatch_append (name : String) (pre post : List Task) (t : Task)
    (ht : isMilestone name t = true) (hpost : ∀ u ∈ post, isMilestone name u = false) :
    lastMatch name (pre ++ t :: post) = some t := by
  induction pre with
  | nil =>
    have hnone := (lastMatch_eq_none_iff name post).2 hpost
    simp [lastMatch, hnone, ht]
  | cons a pre ih =>
    simp [lastMatch, ih]

/-- The stable branch under a schedule whose matching starts `Atoi` accepts:
the record holds the results of the two scans. -/
theorem mapCollection_stable (env : Env) (c : Collection) (sched : Schedule)
    (hv : c.Version ≠ "devel") (hs : c.Status = "Active" ∨ c.Status = "EOL")
    (hg : env.getSchedule (scheduleURL c.Version) = some sched)
    (hnum : ∀ t ∈ sched.Tasks,
      isMilestone "Current Final Target date" t = true → Atoi t.Start ≠ none)
    (hnumEol : c.Status = "EOL" →
      ∀ t ∈ sched.Tasks, isMilestone "EOL" t = true → Atoi t.Start ≠ none) :
    ∃ date dateEol,
      scanTasks env "Current Final Target date" sched.Tasks "" = .ok date ∧
      (c.Status = "EOL" → scanTasks env "EOL" sched.Tasks "" = .ok dateEol) ∧
      (c.Status ≠ "EOL" → dateEol = "") ∧
      mapCollection env c = .ok (stableRelease c.Version date dateEol) := by
  have h1 := scanTasks_numeric env "Current Final Target date" sched.Tasks "" hnum
  by_cases he : c.Status = "EOL"
  · have h2 := scanTasks_numeric env "EOL" sched.Tasks "" (hnumEol he)
    refine ⟨_, _, h1, fun _ => h2, fun hne => absurd he hne, ?_⟩
    rw [mapCollection_eol env c sched hv he hg, h1, h2]
    rfl
  · have ha : c.Status = "Active" := hs.resolve_right he
    refine ⟨_, "", h1, fun h => absurd h he, fun _ => rfl, ?_⟩
    rw [mapCollection_active env c sched hv ha hg, h1]
    rfl

theorem main_fails_of_mem (env : Env) (doc : PkgDbCollections) (c : Collection)
    (hc : c ∈ doc.Collections) (hf : passesFilter c = true) (e : Fatal)
    (he : mapCollection env c = .error e) : ∃ e2, main env doc = .error e2 := by
  by_cases ho : doc.Output = "ok"
  · obtain ⟨e2, he2⟩ := mainLoop_error_of_mem env doc.Collections [] c hc hf e he
    exact ⟨e2, (main_error_iff env doc e2).2 (Or.inr ⟨ho, he2⟩)⟩
  · exact ⟨_, (main_error_iff env doc _).2 (Or.inl ⟨ho, rfl⟩)⟩

/-! ## The claims -/

/-- C1. A collection passes the three guards exactly when its name is
"Fedora Linux", or its name is "Fedora" and its version is at least "30" and
below "35" in the byte-wise order. A collection of another name is dropped, a
dropped collection adds no release, "Fedora" 29, 35, devel and 9 are dropped,
and "Fedora Linux" is kept whatever its version. -/
theorem C1_filter_characterisation (env : Env) (c : Collection) :
    (passesFilter c = true ↔
      (c.Name = "Fedora Linux" ∨
        (c.Name = "Fedora" ∧ strGe c.Version "30" = true ∧ strLess c.Version "35" = true))) ∧
    (c.Name ≠ "Fedora" → c.Name ≠ "Fedora Linux" → passesFilter c = false) ∧
    (passesFilter c = false →
      (∀ cs rs, mainLoop env (c :: cs) rs = mainLoop env cs rs) ∧
      main env { Collections := [c], Output := "ok" } = .ok baseComponent) ∧
    (c.Name = "Fedora" →
      c.Version = "29" ∨ c.Version = "35" ∨ c.Version = "devel" ∨ c.Version = "9" →
      passesFilter c = false) ∧
    (c.Name = "Fedora Linux" → passesFilter c = true) := by
  refine ⟨passesFilter_iff c, ?_, ?_, ?_, ?_⟩
  · intro h1 h2
    rw [Bool.eq_false_iff, Ne, passesFilter_iff]
    rintro (h | ⟨h, -⟩)
    · exact h2 h
    · exact h1 h
  · intro h
    refine ⟨fun cs rs => mainLoop_skip env c cs rs h, ?_⟩
    simp [main, mainLoop, h, baseComponent]
  · intro hn hv
    rw [Bool.eq_false_iff, Ne, passesFilter_iff]
    rintro (h | ⟨-, h30, h35⟩)
    · rw [hn] at h
      revert h
      decide
    · rcases hv with hv | hv | hv | hv <;> rw [hv] at h30 h35 <;> revert h30 h35 <;> decide
  · intro h
    exact (passesFilter_iff c).2 (Or.inl h)

/-- C1, at a collection of another product: it is dropped and the run over it
alone yields a document without releases. -/
theorem C1_filter_characterisation_witness :
    passesFilter exEpel = false ∧
      main (utcEnv []) { Collections := [exEpel], Output := "ok" } = .ok baseComponent :=
  ⟨(C1_filter_characterisation (utcEnv []) exEpel).2.1 (by decide) (by decide),
    ((C1_filter_characterisation (utcEnv []) exEpel).2.2.1 (by decide)).2⟩

/-- C2. The run succeeds exactly when the output field is "ok" and every
collection that passes the filter maps to a release; the releases of the
document are then those releases in the order of the input, so there are as
many as passing collections and the i-th comes from the i-th passing one. -/
theorem C2_release_order_and_count (env : Env) (doc : PkgDbCollections) (m : Component) :
    (main env doc = .ok m ↔
      doc.Output = "ok" ∧ ∃ rs,
        List.Forall₂ (fun c r => mapCollection env c = .ok r)
          (doc.Collections.filter passesFilter) rs ∧
        m = { baseComponent with Releases := { Release := rs } }) ∧
    (main env doc = .ok m →
      m.Releases.Release.length = (doc.Collections.filter passesFilter).length ∧
      ∀ (i : Nat) (h1 : i < (doc.Collections.filter passesFilter).length)
        (h2 : i < m.Releases.Release.length),
        mapCollection env ((doc.Collections.filter passesFilter).get ⟨i, h1⟩) =
          .ok (m.Releases.Release.get ⟨i, h2⟩)) := by
  have hiff : main env doc = .ok m ↔
      doc.Output = "ok" ∧ ∃ rs,
        List.Forall₂ (fun c r => mapCollection env c = .ok r)
          (doc.Collections.filter passesFilter) rs ∧
        m = { baseComponent with Releases := { Release := rs } } := by
    rw [main_ok_iff]
    constructor
    · rintro ⟨ho, rs, hl, hm⟩
      obtain ⟨new, hnew, hall⟩ := (mainLoop_ok_iff env _ _ _).1 hl
      simp only [List.nil_append] at hnew
      subst hnew
      exact ⟨ho, rs, hall, hm⟩
    · rintro ⟨ho, rs, hall, hm⟩
      exact ⟨ho, rs, (mainLoop_ok_iff env _ _ _).2 ⟨rs, by simp, hall⟩, hm⟩
  refine ⟨hiff, fun h => ?_⟩
  obtain ⟨-, rs, hall, rfl⟩ := hiff.1 h
  obtain ⟨hlen, hget⟩ := List.forall₂_iff_get.1 hall
  exact ⟨hlen.symm, hget⟩

/-- C2, at a document of five collections out of version order: the three that
pass the filter give the three releases, in the order of the input. -/
theorem C2_release_order_and_count_witness :
    main (utcEnv [exFinal, exEolTask]) exDoc = .ok exDocOut ∧
      exDocOut.Releases.Release.length = (exDoc.Collections.filter passesFilter).length ∧
      exDocOut.Releases.Release.map (fun r => r.Version) = ["41", "Rawhide", "31"] :=
  ⟨by rfl,
    ((C2_release_order_and_count (utcEnv [exFinal, exEolTask]) exDoc exDocOut).2 (by rfl)).1,
    by decide⟩

/-- C3. A collection that passes the filter with version "devel" maps, in every
environment and whatever its status, to the one Rawhide release: version
"Rawhide", type "development", both dates empty, the fixed text. -/
theorem C3_rawhide_mapping (env : Env) (c : Collection)
    (hf : passesFilter c = true) (hv : c.Version = "devel") :
    mapCollection env c = .ok rawhideRelease ∧
    (∀ cs rs, mainLoop env (c :: cs) rs = mainLoop env cs (rs ++ [rawhideRelease])) ∧
    main env { Collections := [c], Output := "ok" } =
      .ok { baseComponent with Releases := { Release := [rawhideRelease] } } := by
  have hm : mapCollection env c = .ok rawhideRelease := mapCollection_devel env c hv
  refine ⟨hm, fun cs rs => mainLoop_keep env c cs rs _ hf hm, ?_⟩
  simp [main, mainLoop, hf, hm]

/-- C3, at the scenario of the specification: the Rawhide collection alone
gives exactly one release, version "Rawhide", type "development". -/
theorem C3_rawhide_mapping_witness :
    ∃ m, main (utcEnv []) { Collections := [exRawhide], Output := "ok" } = .ok m ∧
      m.Releases.Release.length = 1 ∧
      m.Releases.Release.map (fun r => (r.Version, r.Type_, r.Date, r.DateEol)) =
        [("Rawhide", "development", "", "")] :=
  ⟨_, (C3_rawhide_mapping (utcEnv []) exRawhide (by decide) (by decide)).2.2, by decide, by decide⟩

/-- C8. A collection that passes the filter with a version other than "devel"
and status "Under Development" maps to one development release of its version
with the fixed short text and both dates empty, the same in every environment.
Every release of every document has type "development" or "stable", and a
release of type "development" has both dates empty. -/
theorem C8_under_development_mapping (env : Env) (c : Collection) :
    (passesFilter c = true → c.Version ≠ "devel" → c.Status = "Under Development" →
      mapCollection env c = .ok (upcomingRelease c.Version) ∧
      (∀ env2 : Env, mapCollection env2 c = mapCollection env c) ∧
      (∀ cs rs, mainLoop env (c :: cs) rs = mainLoop env cs (rs ++ [upcomingRelease c.Version]))) ∧
    (∀ (doc : PkgDbCollections) (m : Component), main env doc = .ok m →
      ∀ r ∈ m.Releases.Release,
        (r.Type_ = "development" ∨ r.Type_ = "stable") ∧
        (r.Type_ = "development" → r.Date = "" ∧ r.DateEol = "")) := by
  constructor
  · intro hf hv hs
    have hm : ∀ e : Env, mapCollection e c = .ok (upcomingRelease c.Version) :=
      fun e => mapCollection_underDevelopment e c hv hs
    exact ⟨hm env, fun env2 => by rw [hm env2, hm env],
      fun cs rs => mainLoop_keep env c cs rs _ hf (hm env)⟩
  · intro doc m h r hr
    obtain ⟨-, rs, hl, rfl⟩ := (main_ok_iff env doc m).1 h
    obtain ⟨new, hnew, hall⟩ := (mainLoop_ok_iff env _ _ _).1 hl
    simp only [List.nil_append] at hnew
    subst hnew
    obtain ⟨d, -, hd⟩ := forall₂_mem_right hall hr
    rcases mapCollection_ok_cases env d r hd with ⟨h1, h2, h3⟩ | h1
    · exact ⟨Or.inl h1, fun _ => ⟨h2, h3⟩⟩
    · refine ⟨Or.inr h1, fun h2 => ?_⟩
      rw [h1] at h2
      exact absurd h2 (by decide)

/-- C8, at a branched release: the record is the development release of
version 41, from a server that answers and from one that does not. -/
theorem C8_under_development_mapping_witness :
    mapCollection (utcEnv [exFinalBad]) exUpcoming = .ok (upcomingRelease "41") ∧
      mapCollection { getSchedule := fun _ => none, localDate := utcDate } exUpcoming =
        mapCollection (utcEnv [exFinalBad]) exUpcoming :=
  ⟨((C8_under_development_mapping (utcEnv [exFinalBad]) exUpcoming).1
      (by decide) (by decide) (by decide)).1,
    ((C8_under_development_mapping (utcEnv [exFinalBad]) exUpcoming).1
      (by decide) (by decide) (by decide)).2.1 _⟩

/-- C9. When the output field of the collections document is not "ok" the run
ends with the fatal error of line 142, whatever the collections and the
environment are; when it is "ok" the run never ends with that error. -/
theorem C9_output_validation (env : Env) (doc : PkgDbCollections) :
    (doc.Output ≠ "ok" → main env doc = .error .invalidOutput) ∧
    (doc.Output = "ok" → main env doc ≠ .error .invalidOutput) := by
  constructor
  · intro h
    exact (main_error_iff env doc _).2 (Or.inl ⟨h, rfl⟩)
  · intro ho h
    rcases (main_error_iff env doc _).1 h with ⟨h1, -⟩ | ⟨-, h2⟩
    · exact h1 ho
    · obtain ⟨c, -, -, hc⟩ := mainLoop_error env _ _ _ h2
      exact mapCollection_ne_invalidOutput env c hc

/-- C9, at a document marked "notok" whose collections would all map. -/
theorem C9_output_validation_witness :
    main (utcEnv []) exDocNotOk = .error .invalidOutput :=
  (C9_output_validation (utcEnv []) exDocNotOk).1 (by decide)

/-- C7. If some collection of the document passes the filter with a version
other than "devel" and a status that is none of "Under Development", "Active"
and "EOL", the run ends with a fatal error and yields no document. A collection
with version "devel" or one of the three statuses never raises the error of
line 216, and a run that ends with it holds such a collection. -/
theorem C7_unknown_status_fatal (env : Env) (doc : PkgDbCollections) :
    (∀ c ∈ doc.Collections, passesFilter c = true → c.Version ≠ "devel" → unknownStatus c →
      (∃ e, main env doc = .error e) ∧ ∀ m, main env doc ≠ .ok m) ∧
    (∀ c : Collection,
      c.Version = "devel" ∨ c.Status = "Under Development" ∨ c.Status = "Active" ∨
        c.Status = "EOL" →
      mapCollection env c ≠ .error .shouldNeverBeReached) ∧
    (main env doc = .error .shouldNeverBeReached →
      ∃ c ∈ doc.Collections, passesFilter c = true ∧ c.Version ≠ "devel" ∧ unknownStatus c) := by
  refine ⟨?_, ?_, ?_⟩
  · intro c hc hf hv hu
    have hex : ∃ e, main env doc = .error e := by
      by_cases ho : doc.Output = "ok"
      · obtain ⟨e, he⟩ := mainLoop_error_of_mem env doc.Collections [] c hc hf _
          (mapCollection_unknown env c hv hu)
        exact ⟨e, (main_error_iff env doc e).2 (Or.inr ⟨ho, he⟩)⟩
      · exact ⟨_, (main_error_iff env doc _).2 (Or.inl ⟨ho, rfl⟩)⟩
    refine ⟨hex, fun m hm => ?_⟩
    obtain ⟨e, he⟩ := hex
    rw [he] at hm
    cases hm
  · intro c hc h
    obtain ⟨hv, h1, h2, h3⟩ := (mapCollection_unreachable_iff env c).1 h
    rcases hc with hc | hc | hc | hc
    · exact hv hc
    · exact h1 hc
    · exact h2 hc
    · exact h3 hc
  · intro h
    rcases (main_error_iff env doc _).1 h with ⟨-, h1⟩ | ⟨-, h2⟩
    · cases h1
    · obtain ⟨c, hc, hf, hm⟩ := mainLoop_error env _ _ _ h2
      obtain ⟨hv, hu⟩ := (mapCollection_unreachable_iff env c).1 hm
      exact ⟨c, hc, hf, hv, hu⟩

/-- C7, at a document whose third collection has status "Retired": the run is
fatal although the first two collections map without error. -/
theorem C7_unknown_status_fatal_witness :
    (∃ e, main (utcEnv []) exDocRetired = .error e) ∧
      main (utcEnv []) exDocRetired = .error .shouldNeverBeReached :=
  ⟨((C7_unknown_status_fatal (utcEnv []) exDocRetired).1 exRetired (by decide) (by decide)
      (by decide) ⟨by decide, by decide, by decide⟩).1, by rfl⟩

/-- C4, as stated, fails: the start of the release milestone is a decimal
integer string, so a numeric value, yet `Atoi` rejects it as out of range, the
mapping of the "Active" collection is fatal and no stable release exists. -/
theorem C4_numeric_overflow_counterexample :
    passesFilter exActive = true ∧ exActive.Version ≠ "devel" ∧ exActive.Status = "Active" ∧
    (utcEnv exHugeFinal).getSchedule (scheduleURL exActive.Version) =
      some { Tasks := exHugeFinal } ∧
    (∀ t ∈ exHugeFinal, isDecimalInteger t.Start = true) ∧
    (∃ t ∈ exHugeFinal, t.Name = "Current Final Target date" ∧ t.Type_ = "Milestone") ∧
    mapCollection (utcEnv exHugeFinal) exActive = .error (.atoi "9223372036854775808") ∧
    (∀ r, mapCollection (utcEnv exHugeFinal) exActive ≠ .ok r) ∧
    main (utcEnv exHugeFinal) exDocActive = .error (.atoi "9223372036854775808") := by
  have hm : mapCollection (utcEnv exHugeFinal) exActive =
      .error (.atoi "9223372036854775808") := by rfl
  refine ⟨by decide, by decide, by decide, rfl, by decide, by decide, hm, ?_, by rfl⟩
  intro r hr
  rw [hm] at hr
  cases hr

/-- C4, amended. A collection that passes the filter with a version other than
"devel" and status "Active" or "EOL", under a schedule whose matching tasks
have a start `Atoi` accepts (a decimal integer that fits the `int` type), maps
to one release of type "stable", of its own version, with the announcement
address as text, and a date that is non-empty exactly when the task list holds
a task named "Current Final Target date" of type "Milestone". -/
theorem C4_stable_mapping (env : Env) (c : Collection) (sched : Schedule)
    (hf : passesFilter c = true) (hv : c.Version ≠ "devel")
    (hs : c.Status = "Active" ∨ c.Status = "EOL")
    (hg : env.getSchedule (scheduleURL c.Version) = some sched)
    (hnum : ∀ t ∈ sched.Tasks,
      isMilestone "Current Final Target date" t = true → Atoi t.Start ≠ none)
    (hnumEol : c.Status = "EOL" →
      ∀ t ∈ sched.Tasks, isMilestone "EOL" t = true → Atoi t.Start ≠ none) :
    ∃ r, mapCollection env c = .ok r ∧
      (∀ cs rs, mainLoop env (c :: cs) rs = mainLoop env cs (rs ++ [r])) ∧
      r.Type_ = "stable" ∧ r.Version = c.Version ∧
      r.Description.P = "https://fedoramagazine.org/announcing-fedora-" ++ c.Version ++ "/" ∧
      (r.Date ≠ "" ↔
        ∃ t ∈ sched.Tasks, t.Name = "Current Final Target date" ∧ t.Type_ = "Milestone") := by
  obtain ⟨date, dateEol, h1, -, -, hm⟩ := mapCollection_stable env c sched hv hs hg hnum hnumEol
  refine ⟨_, hm, fun cs rs => mainLoop_keep env c cs rs _ hf hm, rfl, rfl, rfl, ?_⟩
  show date ≠ "" ↔ _
  rw [scanTasks_ne_empty_iff env _ _ _ h1]
  simp only [isMilestone_iff]

/-- C4, at an "Active" collection whose schedule holds a task with the name of
the release milestone but another type, a milestone of another name, and the
release milestone itself: the date is that of the milestone. -/
theorem C4_stable_mapping_witness :
    ∃ r, mapCollection (utcEnv exMixed) exActive = .ok r ∧
      (∀ cs rs, mainLoop (utcEnv exMixed) (exActive :: cs) rs =
        mainLoop (utcEnv exMixed) cs (rs ++ [r])) ∧
      r.Type_ = "stable" ∧ r.Version = exActive.Version ∧
      r.Description.P =
        "https://fedoramagazine.org/announcing-fedora-" ++ exActive.Version ++ "/" ∧
      (r.Date ≠ "" ↔
        ∃ t ∈ exMixed, t.Name = "Current Final Target date" ∧ t.Type_ = "Milestone") :=
  C4_stable_mapping (utcEnv exMixed) exActive { Tasks := exMixed } (by decide) (by decide)
    (by decide) rfl (by decide) (by decide)

/-- C5, as stated, fails: with two release milestones and two end-of-life
milestones in the schedule, the dates of the release are not those of the
first matching tasks (2019-10-29 and 2021-01-01). -/
theorem C5_first_match_counterexample :
    passesFilter exEol = true ∧
    firstMatch "Current Final Target date" exTwice = some exFinal ∧
    taskDate (utcEnv exTwice) exFinal = some "2019-10-29" ∧
    firstMatch "EOL" exTwice = some exEolTask ∧
    taskDate (utcEnv exTwice) exEolTask = some "2021-01-01" ∧
    mapCollection (utcEnv exTwice) exEol = .ok (stableRelease "31" "2019-11-05" "2021-01-02") ∧
    (stableRelease "31" "2019-11-05" "2021-01-02").Date ≠ "2019-10-29" ∧
    (stableRelease "31" "2019-11-05" "2021-01-02").DateEol ≠ "2021-01-01" :=
  ⟨by decide, by decide, by decide, by decide, by decide, by rfl, by decide, by decide⟩

/-- C5, amended. The last matching task wins: under a schedule whose matching
tasks have a start `Atoi` accepts, the date of a stable release is the date
string of the start of the last task named "Current Final Target date" of type
"Milestone", and the end-of-life date of an "EOL" collection is that of the
last task named "EOL" of type "Milestone". -/
theorem C5_last_matching_task_wins (env : Env) (c : Collection) (sched : Schedule)
    (hf : passesFilter c = true) (hv : c.Version ≠ "devel")
    (hs : c.Status = "Active" ∨ c.Status = "EOL")
    (hg : env.getSchedule (scheduleURL c.Version) = some sched)
    (hnum : ∀ t ∈ sched.Tasks,
      isMilestone "Current Final Target date" t = true → Atoi t.Start ≠ none)
    (hnumEol : c.Status = "EOL" →
      ∀ t ∈ sched.Tasks, isMilestone "EOL" t = true → Atoi t.Start ≠ none) :
    ∃ r, mapCollection env c = .ok r ∧
      (∀ cs rs, mainLoop env (c :: cs) rs = mainLoop env cs (rs ++ [r])) ∧
      (∀ pre t post, sched.Tasks = pre ++ t :: post →
        (t.Name = "Current Final Target date" ∧ t.Type_ = "Milestone") →
        (∀ u ∈ post, ¬ (u.Name = "Current Final Target date" ∧ u.Type_ = "Milestone")) →
        ∃ res, Atoi t.Start = some res ∧ r.Date = dateString (env.localDate res)) ∧
      (c.Status = "EOL" →
        ∀ pre t post, sched.Tasks = pre ++ t :: post →
          (t.Name = "EOL" ∧ t.Type_ = "Milestone") →
          (∀ u ∈ post, ¬ (u.Name = "EOL" ∧ u.Type_ = "Milestone")) →
          ∃ res, Atoi t.Start = some res ∧ r.DateEol = dateString (env.localDate res)) := by
  obtain ⟨date, dateEol, h1, h2, -, hm⟩ :=
    mapCollection_stable env c sched hv hs hg hnum hnumEol
  have key : ∀ (name : String) (d : String),
      (∀ t ∈ sched.Tasks, isMilestone name t = true → Atoi t.Start ≠ none) →
      scanTasks env name sched.Tasks "" = .ok d →
      ∀ pre t post, sched.Tasks = pre ++ t :: post →
        (t.Name = name ∧ t.Type_ = "Milestone") →
        (∀ u ∈ post, ¬ (u.Name = name ∧ u.Type_ = "Milestone")) →
        ∃ res, Atoi t.Start = some res ∧ d = dateString (env.localDate res) := by
    intro name d hn hscan pre t post hsplit ht hpost
    have htm : isMilestone name t = true := (isMilestone_iff name t).2 ht
    have hpm : ∀ u ∈ post, isMilestone name u = false := by
      intro u hu
      rw [Bool.eq_false_iff, Ne, isMilestone_iff]
      exact hpost u hu
    have hmem : t ∈ sched.Tasks := by
      rw [hsplit]
      exact List.mem_append_right _ (List.mem_cons_self _ _)
    obtain ⟨res, hres⟩ := Option.ne_none_iff_exists'.1 (hn t hmem htm)
    refine ⟨res, hres, ?_⟩
    rw [scanTasks_numeric env name sched.Tasks "" hn, hsplit,
      lastMatch_append name pre post t htm hpm] at hscan
    simp only [Option.some_bind, taskDate, hres, Option.map_some', Option.getD_some,
      Except.ok.injEq] at hscan
    exact hscan.symm
  refine ⟨_, hm, fun cs rs => mainLoop_keep env c cs rs _ hf hm, ?_, ?_⟩
  · exact key _ date hnum h1
  · intro he
    exact key _ dateEol (hnumEol he) (h2 he)

/-- C5 amended, at the schedule with both milestones twice: the dates of the
release are the date strings of the second release milestone and of the second
end-of-life milestone. -/
theorem C5_last_matching_task_wins_witness :
    ∃ r, mapCollection (utcEnv exTwice) exEol = .ok r ∧
      (∃ res, Atoi exFinalSlipped.Start = some res ∧ r.Date = dateString (utcDate res)) ∧
      (∃ res, Atoi exEolSlipped.Start = some res ∧ r.DateEol = dateString (utcDate res)) :=
  let ⟨r, hr, _, h1, h2⟩ :=
    C5_last_matching_task_wins (utcEnv exTwice) exEol { Tasks := exTwice } (by decide)
      (by decide) (by decide) rfl (by decide) (by decide)
  ⟨r, hr,
    h1 [exFinal] exFinalSlipped [exEolTask, exEolSlipped] rfl (by decide) (by decide),
    h2 (by decide) [exFinal, exFinalSlipped, exEolTask] exEolSlipped [] rfl (by decide)
      (by decide)⟩

/-- C6, as stated, fails: the schedule of the "EOL" collection holds both
milestones and every start is a decimal integer string, so a numeric value, yet
`Atoi` rejects the start of the end-of-life milestone as out of range, the
mapping is fatal and no release with both dates exists. -/
theorem C6_numeric_overflow_counterexample :
    passesFilter exEol = true ∧ exEol.Version ≠ "devel" ∧ exEol.Status = "EOL" ∧
    (utcEnv exHugeEol).getSchedule (scheduleURL exEol.Version) = some { Tasks := exHugeEol } ∧
    (∀ t ∈ exHugeEol, isDecimalInteger t.Start = true) ∧
    (∃ t ∈ exHugeEol, t.Name = "Current Final Target date" ∧ t.Type_ = "Milestone") ∧
    (∃ t ∈ exHugeEol, t.Name = "EOL" ∧ t.Type_ = "Milestone") ∧
    mapCollection (utcEnv exHugeEol) exEol = .error (.atoi "9223372036854775808") ∧
    (∀ r, mapCollection (utcEnv exHugeEol) exEol ≠ .ok r) := by
  have hm : mapCollection (utcEnv exHugeEol) exEol =
      .error (.atoi "9223372036854775808") := by rfl
  refine ⟨by decide, by decide, by decide, rfl, by decide, by decide, by decide, hm, ?_⟩
  intro r hr
  rw [hm] at hr
  cases hr

/-- C6, amended. For a collection that passes the filter with a version other
than "devel", under a schedule whose matching tasks have a start `Atoi` accepts
(a decimal integer that fits the `int` type): a release is produced for each of the three statuses, and its end-of-life date is
non-empty exactly when the status is "EOL" and the task list holds a task named
"EOL" of type "Milestone". An "Active" collection gets an empty end-of-life
date whatever the schedule holds, and an "EOL" collection whose schedule holds
both milestones gets both dates. -/
theorem C6_eol_date_only_for_eol (env : Env) (c : Collection) (sched : Schedule)
    (hf : passesFilter c = true) (hv : c.Version ≠ "devel")
    (hg : env.getSchedule (scheduleURL c.Version) = some sched)
    (hnum : ∀ t ∈ sched.Tasks,
      isMilestone "Current Final Target date" t = true → Atoi t.Start ≠ none)
    (hnumEol : c.Status = "EOL" →
      ∀ t ∈ sched.Tasks, isMilestone "EOL" t = true → Atoi t.Start ≠ none) :
    (c.Status = "Under Development" ∨ c.Status = "Active" ∨ c.Status = "EOL" →
      ∃ r, mapCollection env c = .ok r ∧
        ∀ cs rs, mainLoop env (c :: cs) rs = mainLoop env cs (rs ++ [r])) ∧
    (∀ r, mapCollection env c = .ok r →
      (r.DateEol ≠ "" ↔
        c.Status = "EOL" ∧ ∃ t ∈ sched.Tasks, t.Name = "EOL" ∧ t.Type_ = "Milestone")) ∧
    (c.Status = "Active" → ∃ r, mapCollection env c = .ok r ∧ r.DateEol = "") ∧
    (c.Status = "EOL" →
      (∃ t ∈ sched.Tasks, t.Name = "Current Final Target date" ∧ t.Type_ = "Milestone") →
      (∃ t ∈ sched.Tasks, t.Name = "EOL" ∧ t.Type_ = "Milestone") →
      ∃ r, mapCollection env c = .ok r ∧ r.Date ≠ "" ∧ r.DateEol ≠ "") := by
  have hne1 : ("Under Development" : String) ≠ "EOL" := by decide
  have hne2 : ("Active" : String) ≠ "EOL" := by decide
  have stable : c.Status = "Active" ∨ c.Status = "EOL" →
      ∃ date dateEol,
        scanTasks env "Current Final Target date" sched.Tasks "" = .ok date ∧
        (c.Status = "EOL" → scanTasks env "EOL" sched.Tasks "" = .ok dateEol) ∧
        (c.Status ≠ "EOL" → dateEol = "") ∧
        mapCollection env c = .ok (stableRelease c.Version date dateEol) :=
    fun hs => mapCollection_stable env c sched hv hs hg hnum hnumEol
  refine ⟨?_, ?_, ?_, ?_⟩
  · rintro (h | h | h)
    · exact ⟨_, mapCollection_underDevelopment env c hv h,
        fun cs rs => mainLoop_keep env c cs rs _ hf (mapCollection_underDevelopment env c hv h)⟩
    · obtain ⟨date, dateEol, -, -, -, hm⟩ := stable (Or.inl h)
      exact ⟨_, hm, fun cs rs => mainLoop_keep env c cs rs _ hf hm⟩
    · obtain ⟨date, dateEol, -, -, -, hm⟩ := stable (Or.inr h)
      exact ⟨_, hm, fun cs rs => mainLoop_keep env c cs rs _ hf hm⟩
  · intro r hr
    by_cases h1 : c.Status = "Under Development"
    · rw [mapCollection_underDevelopment env c hv h1] at hr
      cases hr
      have : c.Status ≠ "EOL" := by rw [h1]; exact hne1
      simp [this]
    · by_cases h2 : c.Status = "Active"
      · obtain ⟨date, dateEol, -, -, hd, hm⟩ := stable (Or.inl h2)
        have hnot : c.Status ≠ "EOL" := by rw [h2]; exact hne2
        rw [hm] at hr
        cases hr
        simp [stableRelease, hd hnot, hnot]
      · by_cases h3 : c.Status = "EOL"
        · obtain ⟨date, dateEol, -, hscan, -, hm⟩ := stable (Or.inr h3)
          rw [hm] at hr
          cases hr
          show dateEol ≠ "" ↔ _
          rw [scanTasks_ne_empty_iff env _ _ _ (hscan h3)]
          simp only [isMilestone_iff, h3, true_and]
        · rw [mapCollection_unknown env c hv ⟨h1, h2, h3⟩] at hr
          cases hr
  · intro h
    obtain ⟨date, dateEol, -, -, hd, hm⟩ := stable (Or.inl h)
    have hnot : c.Status ≠ "EOL" := by rw [h]; exact hne2
    exact ⟨_, hm, hd hnot⟩
  · intro h hfin heol
    obtain ⟨date, dateEol, hs1, hs2, -, hm⟩ := stable (Or.inr h)
    refine ⟨_, hm, ?_, ?_⟩
    · show date ≠ ""
      rw [scanTasks_ne_empty_iff env _ _ _ hs1]
      simpa only [isMilestone_iff] using hfin
    · show dateEol ≠ ""
      rw [scanTasks_ne_empty_iff env _ _ _ (hs2 h)]
      simpa only [isMilestone_iff] using heol

/-- C6, at an "Active" collection whose schedule holds an end-of-life
milestone: the release has a date but no end-of-life date. -/
theorem C6_eol_date_only_for_eol_witness :
    (∃ r, mapCollection (utcEnv exBoth) exActive = .ok r ∧ r.DateEol = "") ∧
      mapCollection (utcEnv exBoth) exActive = .ok (stableRelease "40" "2019-10-29" "") ∧
      mapCollection (utcEnv exBoth) exEol =
        .ok (stableRelease "31" "2019-10-29" "2021-01-01") :=
  ⟨(C6_eol_date_only_for_eol (utcEnv exBoth) exActive { Tasks := exBoth } (by decide)
      (by decide) rfl (by decide) (by decide)).2.2.1 (by decide), by rfl, by rfl⟩

/-- C10. For a collection that passes the filter with a version other than
"devel" and status "Active" or "EOL" whose schedule was fetched: a release
milestone whose start is not a decimal integer string, or, for status "EOL",
an end-of-life milestone whose start is not one, makes the mapping fail with
the error of `Atoi` and every run over a document holding the collection
fatal. The mapping fails with that error only on a matching task whose start
`Atoi` rejects, so a start on any other task, the end-of-life milestone of an
"Active" collection included, never fails the run. -/
theorem C10_non_numeric_start_fatal (env : Env) (c : Collection) (sched : Schedule)
    (hf : passesFilter c = true) (hv : c.Version ≠ "devel")
    (hs : c.Status = "Active" ∨ c.Status = "EOL")
    (hg : env.getSchedule (scheduleURL c.Version) = some sched) :
    (((∃ t ∈ sched.Tasks, t.Name = "Current Final Target date" ∧ t.Type_ = "Milestone" ∧
          isDecimalInteger t.Start = false) ∨
        (c.Status = "EOL" ∧
          ∃ t ∈ sched.Tasks, t.Name = "EOL" ∧ t.Type_ = "Milestone" ∧
            isDecimalInteger t.Start = false)) →
      (∃ start, mapCollection env c = .error (.atoi start)) ∧
      ∀ doc : PkgDbCollections, c ∈ doc.Collections →
        (∃ e, main env doc = .error e) ∧ ∀ m, main env doc ≠ .ok m) ∧
    ((∃ e, mapCollection env c = .error e) ↔
      ((∃ t ∈ sched.Tasks, t.Name = "Current Final Target date" ∧ t.Type_ = "Milestone" ∧
          Atoi t.Start = none) ∨
        (c.Status = "EOL" ∧
          ∃ t ∈ sched.Tasks, t.Name = "EOL" ∧ t.Type_ = "Milestone" ∧ Atoi t.Start = none))) ∧
    ((∀ t ∈ sched.Tasks, t.Name = "Current Final Target date" → t.Type_ = "Milestone" →
          Atoi t.Start ≠ none) →
      (c.Status = "EOL" →
        ∀ t ∈ sched.Tasks, t.Name = "EOL" → t.Type_ = "Milestone" → Atoi t.Start ≠ none) →
      ∃ r, mapCollection env c = .ok r) := by
  have hne2 : ("Active" : String) ≠ "EOL" := by decide
  -- the mapping fails as soon as a matching start is rejected
  have fails : ((∃ t ∈ sched.Tasks, t.Name = "Current Final Target date" ∧
        t.Type_ = "Milestone" ∧ Atoi t.Start = none) ∨
      (c.Status = "EOL" ∧
        ∃ t ∈ sched.Tasks, t.Name = "EOL" ∧ t.Type_ = "Milestone" ∧ Atoi t.Start = none)) →
      ∃ start, mapCollection env c = .error (.atoi start) := by
    intro h
    by_cases he : c.Status = "EOL"
    · rw [mapCollection_eol env c sched hv he hg]
      cases h1 : scanTasks env "Current Final Target date" sched.Tasks "" with
      | error e =>
        obtain ⟨u, -, -, -, rfl⟩ := scanTasks_error _ _ _ _ _ h1
        exact ⟨_, rfl⟩
      | ok date =>
        rcases h with ⟨t, ht, hn, hty, ha⟩ | ⟨-, t, ht, hn, hty, ha⟩
        · obtain ⟨u, -, -, -, hu⟩ := scanTasks_fails env "Current Final Target date"
            sched.Tasks "" t ht ((isMilestone_iff _ t).2 ⟨hn, hty⟩) ha
          rw [hu] at h1
          cases h1
        · obtain ⟨u, -, -, -, hu⟩ := scanTasks_fails env "EOL"
            sched.Tasks "" t ht ((isMilestone_iff _ t).2 ⟨hn, hty⟩) ha
          exact ⟨u.Start, by simp only [hu]⟩
    · have ha : c.Status = "Active" := hs.resolve_right he
      rw [mapCollection_active env c sched hv ha hg]
      rcases h with ⟨t, ht, hn, hty, hat⟩ | ⟨h, -⟩
      · obtain ⟨u, -, -, -, hu⟩ := scanTasks_fails env "Current Final Target date"
          sched.Tasks "" t ht ((isMilestone_iff _ t).2 ⟨hn, hty⟩) hat
        exact ⟨u.Start, by simp only [hu]⟩
      · exact absurd h he
  have succeeds : (∀ t ∈ sched.Tasks, t.Name = "Current Final Target date" →
        t.Type_ = "Milestone" → Atoi t.Start ≠ none) →
      (c.Status = "EOL" →
        ∀ t ∈ sched.Tasks, t.Name = "EOL" → t.Type_ = "Milestone" → Atoi t.Start ≠ none) →
      ∃ r, mapCollection env c = .ok r := by
    intro h1 h2
    obtain ⟨date, dateEol, -, -, -, hm⟩ := mapCollection_stable env c sched hv hs hg
      (fun t ht hm => h1 t ht ((isMilestone_iff _ t).1 hm).1 ((isMilestone_iff _ t).1 hm).2)
      (fun he t ht hm =>
        h2 he t ht ((isMilestone_iff _ t).1 hm).1 ((isMilestone_iff _ t).1 hm).2)
    exact ⟨_, hm⟩
  refine ⟨?_, ?_, succeeds⟩
  · intro h
    have hatoi : ∃ start, mapCollection env c = .error (.atoi start) := by
      apply fails
      rcases h with ⟨t, ht, hn, hty, hd⟩ | ⟨he, t, ht, hn, hty, hd⟩
      · exact Or.inl ⟨t, ht, hn, hty, Atoi_none_of_not_decimal _ hd⟩
      · exact Or.inr ⟨he, t, ht, hn, hty, Atoi_none_of_not_decimal _ hd⟩
    refine ⟨hatoi, fun doc hc => ?_⟩
    obtain ⟨start, hstart⟩ := hatoi
    have hex := main_fails_of_mem env doc c hc hf _ hstart
    refine ⟨hex, fun m hm => ?_⟩
    obtain ⟨e, he⟩ := hex
    rw [he] at hm
    cases hm
  · constructor
    · rintro ⟨e, he⟩
      by_contra hcon
      rw [not_or] at hcon
      obtain ⟨r, hr⟩ := succeeds
        (fun t ht hn hty ha => hcon.1 ⟨t, ht, hn, hty, ha⟩)
        (fun hst t ht hn hty ha => hcon.2 ⟨hst, t, ht, hn, hty, ha⟩)
      rw [hr] at he
      cases he
    · intro h
      obtain ⟨start, hstart⟩ := fails h
      exact ⟨_, hstart⟩

/-- C10, at a release milestone whose start is "soon": the mapping of the
"Active" collection fails with the error of `Atoi` and the run over a document
that holds it is fatal; with the non-numeric starts on other tasks only, the
mapping succeeds. -/
theorem C10_non_numeric_start_fatal_witness :
    ((∃ start, mapCollection (utcEnv exBadFinal) exActive = .error (.atoi start)) ∧
      ∀ doc : PkgDbCollections, exActive ∈ doc.Collections →
        (∃ e, main (utcEnv exBadFinal) doc = .error e) ∧
          ∀ m, main (utcEnv exBadFinal) doc ≠ .ok m) ∧
      main (utcEnv exBadFinal) exDocActive = .error (.atoi "soon") ∧
      ∃ r, mapCollection (utcEnv exMixed) exActive = .ok r :=
  ⟨(C10_non_numeric_start_fatal (utcEnv exBadFinal) exActive { Tasks := exBadFinal }
      (by decide) (by decide) (by decide) rfl).1
      (Or.inl ⟨exFinalBad, by decide, by decide, by decide, by decide⟩),
    by rfl,
    (C10_non_numeric_start_fatal (utcEnv exMixed) exActive { Tasks := exMixed }
      (by decide) (by decide) (by decide) rfl).2.2 (by decide) (by decide)⟩

end AppStream
